import Mathlib

/-!
Shallow embedding of the goroute/compress gzip middleware (compress.go).

The middleware from `New` is embedded as a function `Compress.run` over an
explicit response state.  The external collaborators (the goroute/route
response object, the compress/gzip codec, net/http content sniffing) are
modelled from the spec as black boxes with the operations the spec lists.
-/

namespace Compress

/-- Body bytes are modelled as lists of naturals. -/
abbrev Bytes := List Nat

/-- Header map, modelled as a total function from header name to the list of
values stored under that name (Go's `http.Header` is `map[string][]string`). -/
def Headers := String → List String

/-- `http.Header.Get`: first value under the key, `""` when absent. -/
def hGet (h : Headers) (k : String) : String :=
  match h k with
  | [] => ""
  | v :: _ => v

/-- `http.Header.Add`: append a value under the key. -/
def hAdd (h : Headers) (k v : String) : Headers :=
  fun k' => if k' = k then h k ++ [v] else h k'

/-- `http.Header.Set`: replace all values under the key by the single value. -/
def hSet (h : Headers) (k v : String) : Headers :=
  fun k' => if k' = k then [v] else h k'

/-- `http.Header.Del`: remove the key. -/
def hDel (h : Headers) (k : String) : Headers :=
  fun k' => if k' = k then [] else h k'

/-- route.HeaderVary. -/
def headerVary : String := "Vary"

/-- route.HeaderAcceptEncoding. -/
def headerAcceptEncoding : String := "Accept-Encoding"

/-- route.HeaderContentEncoding. -/
def headerContentEncoding : String := "Content-Encoding"

/-- route.HeaderContentLength. -/
def headerContentLength : String := "Content-Length"

/-- route.HeaderContentType. -/
def headerContentType : String := "Content-Type"

/-- The `gzipScheme` constant of compress.go. -/
def gzipScheme : String := "gzip"

/-- Whether `pat` is an initial segment of the second list (helper for
Go's `strings.Contains`). -/
def listStartsWith : List Char → List Char → Bool
  | [], _ => true
  | _ :: _, [] => false
  | p :: ps, c :: cs => p = c && listStartsWith ps cs

/-- Whether `pat` occurs as a contiguous run inside the second list. -/
def listContainsSub (pat : List Char) : List Char → Bool
  | [] => listStartsWith pat []
  | c :: rest => listStartsWith pat (c :: rest) || listContainsSub pat rest

/-- Go's `strings.Contains s pat` (case-sensitive substring match). -/
def stringContains (s pat : String) : Bool := listContainsSub pat.data s.data

/-- What reaches the underlying response sink.  `raw` is an uncompressed write
(pass-through path); `block` is a compressed segment the gzip writer emits at a
flush or close boundary, carrying its original payload (the codec is a black
box, so a segment is identified by the bytes it encodes); `trailer` is the
stream trailer written by `Close`. -/
inductive Chunk where
  | raw (b : Bytes)
  | block (b : Bytes)
  | trailer
  deriving DecidableEq, Repr

/-- Optional capabilities of the underlying response sink (spec: "optional
incremental flush, optional connection hijack"). -/
structure SinkCaps where
  canFlush : Bool
  canHijack : Bool
  deriving DecidableEq, Repr

/-- Modelled from the spec: the observable response state.  It combines the
host response object (header map, bytes-written counter `size`, status-code
writes, which writer is installed) with the sink's wire and the gzip writer's
internal buffer.  `gzipDiscard` records a `Reset(ioutil.Discard)`. -/
structure St where
  header : Headers
  size : Nat
  wire : List Chunk
  statusWrites : List Nat
  flushCount : Nat
  writerGzip : Bool
  gzipBuf : Bytes
  gzipDiscard : Bool

/-- Modelled from the spec: `net/http.DetectContentType`, external content
sniffing; only the fact that it produces some string matters here. -/
def detectContentType (b : Bytes) : String :=
  if b = [] then "text/plain; charset=utf-8" else "application/octet-stream"

/-- The gzip writer hands chunks to its current sink; after
`Reset(ioutil.Discard)` they are dropped. -/
def gzipEmit (st : St) (cs : List Chunk) : St :=
  if st.gzipDiscard then st else { st with wire := st.wire ++ cs }

/-- `gzipResponseWriter.WriteHeader` (compress.go lines 96-102): on 204 delete
`Content-Encoding` from the underlying sink, always delete `Content-Length`,
then delegate the status write to the underlying sink. -/
def grwWriteHeader (st : St) (code : Nat) : St :=
  let h1 := if code = 204 then hDel st.header headerContentEncoding else st.header
  { st with header := hDel h1 headerContentLength,
            statusWrites := st.statusWrites ++ [code] }

/-- `gzipResponseWriter.Write` (compress.go lines 104-109): sniff and set
`Content-Type` when unset, then write through the gzip writer (which buffers
the bytes until a flush or close boundary). -/
def grwWrite (st : St) (b : Bytes) : St :=
  let h1 := if hGet st.header headerContentType = "" then
              hSet st.header headerContentType (detectContentType b)
            else st.header
  { st with header := h1, gzipBuf := st.gzipBuf ++ b }

/-- `gzipResponseWriter.Flush` (compress.go lines 111-116): flush the gzip
writer (emitting the buffered bytes as a complete block to its sink), then
flush the underlying sink when it supports flushing (comma-ok assertion). -/
def grwFlush (caps : SinkCaps) (st : St) : St :=
  let st1 := { gzipEmit st [Chunk.block st.gzipBuf] with gzipBuf := [] }
  if caps.canFlush then { st1 with flushCount := st1.flushCount + 1 } else st1

/-- Outcome of `gzipResponseWriter.Hijack`. -/
inductive HijackOutcome where
  | hijacked
  | panicked
  deriving DecidableEq, Repr

/-- `gzipResponseWriter.Hijack` (compress.go lines 118-120): a bare type
assertion `w.ResponseWriter.(http.Hijacker)`; it delegates when the sink
implements the interface and panics at run time when it does not. -/
def grwHijack (caps : SinkCaps) : HijackOutcome :=
  if caps.canHijack then HijackOutcome.hijacked else HijackOutcome.panicked

/-- Modelled from the spec: a raw byte write on the pass-through sink. -/
def plainWrite (st : St) (b : Bytes) : St :=
  { st with wire := st.wire ++ [Chunk.raw b] }

/-- Modelled from the spec: a status write on the pass-through sink. -/
def plainWriteHeader (st : St) (code : Nat) : St :=
  { st with statusWrites := st.statusWrites ++ [code] }

/-- Modelled from the spec: flushing the pass-through sink when supported. -/
def plainFlush (caps : SinkCaps) (st : St) : St :=
  if caps.canFlush then { st with flushCount := st.flushCount + 1 } else st

/-- The interactions a downstream handler can have with the response: body
writes, status writes, flushes, and direct header-map edits. -/
inductive Action where
  | write (b : Bytes)
  | writeHeader (code : Nat)
  | flush
  | setHeader (k v : String)
  | addHeader (k v : String)
  | delHeader (k : String)
  deriving DecidableEq, Repr

/-- One handler interaction, routed through whichever writer is installed.
Modelled from the spec: the host response delegates writes to the installed
writer and keeps the running byte count `size`. -/
def step (caps : SinkCaps) (st : St) : Action → St
  | Action.write b =>
      if st.writerGzip then { grwWrite st b with size := st.size + b.length }
      else { plainWrite st b with size := st.size + b.length }
  | Action.writeHeader code =>
      if st.writerGzip then grwWriteHeader st code else plainWriteHeader st code
  | Action.flush =>
      if st.writerGzip then grwFlush caps st else plainFlush caps st
  | Action.setHeader k v => { st with header := hSet st.header k v }
  | Action.addHeader k v => { st with header := hAdd st.header k v }
  | Action.delHeader k => { st with header := hDel st.header k }

/-- Run a handler's interactions in order. -/
def runActions (caps : SinkCaps) : List Action → St → St
  | [], st => st
  | a :: rest, st => runActions caps rest (step caps st a)

/-- A downstream handler: its response interactions and the error it returns. -/
structure Handler where
  acts : List Action
  err : Option String

/-- A request, reduced to the header the middleware reads. -/
structure Request where
  acceptEncoding : String

/-- The middleware `Options` of compress.go (skipper plus gzip level). -/
structure Options where
  skipper : Request → Bool
  level : Int

/-- `GetDefaultOptions`: never skip, level -1. -/
def GetDefaultOptions : Options :=
  { skipper := fun _ => false, level := -1 }

/-- Modelled from the spec: `compress/gzip.NewWriterLevel` accepts levels in
the codec-defined range [-2, 9] and fails outside it. -/
def gzipLevelValid (level : Int) : Bool := -2 ≤ level && level ≤ 9

/-- The error text of `gzip.NewWriterLevel` for an out-of-range level. -/
def invalidLevelErr : String := "gzip: invalid compression level"

/-- Pristine response state over an initial header map. -/
def initSt (h0 : Headers) : St :=
  { header := h0, size := 0, wire := [], statusWrites := [], flushCount := 0,
    writerGzip := false, gzipBuf := [], gzipDiscard := false }

/-- State after compress.go line 69: `Vary: Accept-Encoding` appended. -/
def varySt (h0 : Headers) : St :=
  { initSt h0 with header := hAdd h0 headerVary headerAcceptEncoding }

/-- State after compress.go line 71: `Content-Encoding: gzip` set. -/
def gzipReadySt (h0 : Headers) : St :=
  { varySt h0 with
    header := hSet (varySt h0).header headerContentEncoding gzipScheme }

/-- State after compress.go lines 89-90: the gzip decorator installed. -/
def preGzipSt (h0 : Headers) : St :=
  { gzipReadySt h0 with writerGzip := true }

/-- `gzip.Writer.Close`: emit the remaining buffered bytes and the stream
trailer to the current sink. -/
def gzipClose (st : St) : St :=
  { gzipEmit st [Chunk.block st.gzipBuf, Chunk.trailer] with gzipBuf := [] }

/-- The deferred finalizer of compress.go lines 77-88: when nothing was
written, delete a `Content-Encoding: gzip` header, restore the original
writer, reset the gzip writer onto `ioutil.Discard`; then close the gzip
writer in all cases. -/
def finalize (st : St) : St :=
  let st1 :=
    if st.size = 0 then
      let h1 := if hGet st.header headerContentEncoding = gzipScheme then
                  hDel st.header headerContentEncoding
                else st.header
      { st with header := h1, writerGzip := false, gzipBuf := [],
                gzipDiscard := true }
    else st
  gzipClose st1

/-- Result of one middleware invocation: final state, returned error, and
whether `next` was invoked. -/
structure RunResult where
  st : St
  err : Option String
  handlerRan : Bool

/-- The same request handled with no middleware installed: the handler runs
directly against the pristine pass-through state. -/
def runWithout (caps : SinkCaps) (h : Handler) (h0 : Headers) : RunResult :=
  { st := runActions caps h.acts (initSt h0), err := h.err, handlerRan := true }

/-- The middleware function returned by `New` (compress.go lines 63-93):
skip check; append `Vary`; on a gzip `Accept-Encoding` set `Content-Encoding`,
construct the gzip writer (failing on an invalid level before `next` runs),
install the decorator, run `next`, then run the deferred finalizer; the
handler's error is returned unchanged. -/
def run (opts : Options) (req : Request) (caps : SinkCaps) (h : Handler)
    (h0 : Headers) : RunResult :=
  if opts.skipper req then
    runWithout caps h h0
  else if stringContains req.acceptEncoding gzipScheme then
    if gzipLevelValid opts.level then
      { st := finalize (runActions caps h.acts (preGzipSt h0)),
        err := h.err, handlerRan := true }
    else
      { st := gzipReadySt h0, err := some invalidLevelErr, handlerRan := false }
  else
    { st := runActions caps h.acts (varySt h0), err := h.err, handlerRan := true }

/-- Decompression by a standard gzip reader: a complete stream is a run of
blocks closed by the trailer, and decoding recovers the concatenated
payloads; anything else is not a well-formed stream. -/
def gunzip : List Chunk → Option Bytes
  | [Chunk.trailer] => some []
  | Chunk.block b :: rest =>
      match gunzip rest with
      | some tail => some (b ++ tail)
      | none => none
  | _ => none

/-- What an incremental reader can recover so far: the payloads of the
compressed blocks on the wire. -/
def blockPayloads (l : List Chunk) : Bytes :=
  (l.map fun c => match c with | Chunk.block b => b | _ => []).flatten

/-- Concatenation, in order, of all byte slices a handler writes. -/
def writtenBytes : List Action → Bytes
  | [] => []
  | Action.write b :: rest => b ++ writtenBytes rest
  | _ :: rest => writtenBytes rest

/-- Whether an action edits the header map at the given key. -/
def touchesKey (k : String) : Action → Bool
  | Action.setHeader k' _ => k' == k
  | Action.addHeader k' _ => k' == k
  | Action.delHeader k' => k' == k
  | _ => false

/-- Whether an action is a flush. -/
def isFlush : Action → Bool
  | Action.flush => true
  | _ => false

/-- Whether an action writes a 204 status. -/
def is204 : Action → Bool
  | Action.writeHeader code => code == 204
  | _ => false

/-- All-empty initial header map. -/
def emptyHeaders : Headers := fun _ => []

/-- A concrete configuration that never skips, at the default level. -/
def ceOpts : Options := { skipper := fun _ => false, level := -1 }

/-- A concrete request advertising gzip support. -/
def ceReq : Request := { acceptEncoding := "gzip" }

/-- A concrete fully-capable sink. -/
def ceCaps : SinkCaps := { canFlush := true, canHijack := true }

end Compress


namespace Compress

/-! ### Projection lemmas for the sink and writer operations -/

/-- `gzipEmit` only appends to the wire. -/
@[simp] theorem gzipEmit_header (st : St) (cs : List Chunk) :
    (gzipEmit st cs).header = st.header := by
  unfold gzipEmit; split <;> rfl

/-- `gzipEmit` keeps the byte counter. -/
@[simp] theorem gzipEmit_size (st : St) (cs : List Chunk) :
    (gzipEmit st cs).size = st.size := by
  unfold gzipEmit; split <;> rfl

/-- `gzipEmit` keeps the status writes. -/
@[simp] theorem gzipEmit_statusWrites (st : St) (cs : List Chunk) :
    (gzipEmit st cs).statusWrites = st.statusWrites := by
  unfold gzipEmit; split <;> rfl

/-- `gzipEmit` keeps the sink-flush count. -/
@[simp] theorem gzipEmit_flushCount (st : St) (cs : List Chunk) :
    (gzipEmit st cs).flushCount = st.flushCount := by
  unfold gzipEmit; split <;> rfl

/-- `gzipEmit` keeps the installed writer. -/
@[simp] theorem gzipEmit_writerGzip (st : St) (cs : List Chunk) :
    (gzipEmit st cs).writerGzip = st.writerGzip := by
  unfold gzipEmit; split <;> rfl

/-- `gzipEmit` keeps the gzip buffer. -/
@[simp] theorem gzipEmit_gzipBuf (st : St) (cs : List Chunk) :
    (gzipEmit st cs).gzipBuf = st.gzipBuf := by
  unfold gzipEmit; split <;> rfl

/-- `gzipEmit` keeps the discard flag. -/
@[simp] theorem gzipEmit_gzipDiscard (st : St) (cs : List Chunk) :
    (gzipEmit st cs).gzipDiscard = st.gzipDiscard := by
  unfold gzipEmit; split <;> rfl

/-- When the gzip writer is not discarding, `gzipEmit` appends to the wire. -/
theorem gzipEmit_wire_of_not_discard (st : St) (cs : List Chunk)
    (hd : st.gzipDiscard = false) : (gzipEmit st cs).wire = st.wire ++ cs := by
  unfold gzipEmit; rw [hd]; rfl

/-- The gzip flush keeps header, size, status writes, writer and discard flag,
and empties the gzip buffer. -/
@[simp] theorem grwFlush_header (caps : SinkCaps) (st : St) :
    (grwFlush caps st).header = st.header := by
  unfold grwFlush; split <;> simp

/-- The gzip flush keeps the byte counter. -/
@[simp] theorem grwFlush_size (caps : SinkCaps) (st : St) :
    (grwFlush caps st).size = st.size := by
  unfold grwFlush; split <;> simp

/-- The gzip flush keeps the status writes. -/
@[simp] theorem grwFlush_statusWrites (caps : SinkCaps) (st : St) :
    (grwFlush caps st).statusWrites = st.statusWrites := by
  unfold grwFlush; split <;> simp

/-- The gzip flush keeps the installed writer. -/
@[simp] theorem grwFlush_writerGzip (caps : SinkCaps) (st : St) :
    (grwFlush caps st).writerGzip = st.writerGzip := by
  unfold grwFlush; split <;> simp

/-- The gzip flush keeps the discard flag. -/
@[simp] theorem grwFlush_gzipDiscard (caps : SinkCaps) (st : St) :
    (grwFlush caps st).gzipDiscard = st.gzipDiscard := by
  unfold grwFlush; split <;> simp

/-- The gzip flush empties the gzip buffer. -/
@[simp] theorem grwFlush_gzipBuf (caps : SinkCaps) (st : St) :
    (grwFlush caps st).gzipBuf = [] := by
  unfold grwFlush; split <;> simp

/-- The gzip flush counts a sink flush exactly when the sink supports one. -/
theorem grwFlush_flushCount (caps : SinkCaps) (st : St) :
    (grwFlush caps st).flushCount
      = st.flushCount + (if caps.canFlush then 1 else 0) := by
  unfold grwFlush; split <;> simp

/-- When not discarding, the gzip flush puts the buffered bytes on the wire as
one block. -/
theorem grwFlush_wire (caps : SinkCaps) (st : St) (hd : st.gzipDiscard = false) :
    (grwFlush caps st).wire = st.wire ++ [Chunk.block st.gzipBuf] := by
  unfold grwFlush
  split <;> simp [gzipEmit_wire_of_not_discard st _ hd]

/-! ### Basic state-preservation lemmas -/

/-- No handler interaction changes which writer is installed. -/
theorem step_writerGzip (caps : SinkCaps) (st : St) (a : Action) :
    (step caps st a).writerGzip = st.writerGzip := by
  cases a <;>
    by_cases hg : st.writerGzip <;>
    by_cases hc : caps.canFlush <;>
    simp [step, hg, hc, grwWrite, grwWriteHeader, plainWrite,
      plainWriteHeader, plainFlush]

/-- No handler interaction changes the discard flag. -/
theorem step_gzipDiscard (caps : SinkCaps) (st : St) (a : Action) :
    (step caps st a).gzipDiscard = st.gzipDiscard := by
  cases a <;>
    by_cases hg : st.writerGzip <;>
    by_cases hc : caps.canFlush <;>
    simp [step, hg, hc, grwWrite, grwWriteHeader, plainWrite,
      plainWriteHeader, plainFlush]

/-- Running a handler does not change which writer is installed. -/
theorem runActions_writerGzip (caps : SinkCaps) (acts : List Action) (st : St) :
    (runActions caps acts st).writerGzip = st.writerGzip := by
  induction acts generalizing st with
  | nil => rfl
  | cons a rest ih => rw [runActions, ih, step_writerGzip]

/-- Running a handler does not change the discard flag. -/
theorem runActions_gzipDiscard (caps : SinkCaps) (acts : List Action) (st : St) :
    (runActions caps acts st).gzipDiscard = st.gzipDiscard := by
  induction acts generalizing st with
  | nil => rfl
  | cons a rest ih => rw [runActions, ih, step_gzipDiscard]

/-- Each interaction grows the byte counter by exactly the bytes it writes. -/
theorem step_size (caps : SinkCaps) (st : St) (a : Action) :
    (step caps st a).size = st.size + (writtenBytes [a]).length := by
  cases a <;>
    by_cases hg : st.writerGzip <;>
    by_cases hc : caps.canFlush <;>
    simp [step, hg, hc, writtenBytes, grwWrite, grwWriteHeader, plainWrite,
      plainWriteHeader, plainFlush]

/-- The final byte counter is the initial one plus the total bytes written. -/
theorem runActions_size (caps : SinkCaps) (acts : List Action) (st : St) :
    (runActions caps acts st).size = st.size + (writtenBytes acts).length := by
  induction acts generalizing st with
  | nil => simp [runActions, writtenBytes]
  | cons a rest ih =>
      rw [runActions, ih, step_size]
      cases a <;> simp [writtenBytes]
      omega

end Compress

namespace Compress

/-! ### Header-map lemmas -/

/-- The header names this development distinguishes are pairwise distinct. -/
theorem ce_ne_ct : headerContentEncoding ≠ headerContentType := by decide

/-- `Content-Encoding` and `Content-Length` are distinct names. -/
theorem ce_ne_cl : headerContentEncoding ≠ headerContentLength := by decide

/-- `Vary` and `Content-Encoding` are distinct names. -/
theorem vary_ne_ce : headerVary ≠ headerContentEncoding := by decide

/-- Setting one key commutes with adding under a different key. -/
theorem hSet_hAdd_of_ne (h : Headers) {k kA : String} (v vA : String)
    (hne : k ≠ kA) : hSet (hAdd h kA vA) k v = hAdd (hSet h k v) kA vA := by
  funext k'
  by_cases h1 : k' = k
  · subst h1
    simp [hSet, hAdd, hne]
  · by_cases h2 : k' = kA
    · subst h2
      simp [hSet, hAdd, h1, Ne.symm hne]
    · simp [hSet, hAdd, h1, h2]

/-- Adding under one key commutes with adding under a different key. -/
theorem hAdd_hAdd_of_ne (h : Headers) {k kA : String} (v vA : String)
    (hne : k ≠ kA) : hAdd (hAdd h kA vA) k v = hAdd (hAdd h k v) kA vA := by
  funext k'
  by_cases h1 : k' = k
  · subst h1
    simp [hAdd, hne]
  · by_cases h2 : k' = kA
    · subst h2
      simp [hAdd, h1, Ne.symm hne]
    · simp [hAdd, h1, h2]

/-- Deleting one key commutes with adding under a different key. -/
theorem hDel_hAdd_of_ne (h : Headers) {k kA : String} (vA : String)
    (hne : k ≠ kA) : hDel (hAdd h kA vA) k = hAdd (hDel h k) kA vA := by
  funext k'
  by_cases h1 : k' = k
  · subst h1
    simp [hDel, hAdd, hne]
  · by_cases h2 : k' = kA
    · subst h2
      simp [hDel, hAdd, h1, Ne.symm hne]
    · simp [hDel, hAdd, h1, h2]

/-! ### Pass-through commutation (for the no-gzip path) -/

/-- On the pass-through path a handler interaction that does not edit `Vary`
commutes with the middleware's initial `Vary` append. -/
theorem step_plain_addVary (caps : SinkCaps) (st : St) (a : Action)
    (hg : st.writerGzip = false) (hv : touchesKey headerVary a = false) :
    step caps { st with header := hAdd st.header headerVary headerAcceptEncoding } a
      = { step caps st a with
          header := hAdd (step caps st a).header headerVary headerAcceptEncoding } := by
  cases a with
  | write b => simp [step, hg, plainWrite]
  | writeHeader code => simp [step, hg, plainWriteHeader]
  | flush => by_cases hc : caps.canFlush <;> simp [step, hg, plainFlush, hc]
  | setHeader k v =>
      have hk : k ≠ headerVary := by simpa [touchesKey] using hv
      simp [step, hSet_hAdd_of_ne st.header v headerAcceptEncoding hk]
  | addHeader k v =>
      have hk : k ≠ headerVary := by simpa [touchesKey] using hv
      simp [step, hAdd_hAdd_of_ne st.header v headerAcceptEncoding hk]
  | delHeader k =>
      have hk : k ≠ headerVary := by simpa [touchesKey] using hv
      simp [step, hDel_hAdd_of_ne st.header headerAcceptEncoding hk]

/-- On the pass-through path an entire handler that does not edit `Vary`
commutes with the middleware's initial `Vary` append. -/
theorem runActions_plain_addVary (caps : SinkCaps) (acts : List Action) (st : St)
    (hg : st.writerGzip = false)
    (hv : ∀ a ∈ acts, touchesKey headerVary a = false) :
    runActions caps acts { st with header := hAdd st.header headerVary headerAcceptEncoding }
      = { runActions caps acts st with
          header := hAdd (runActions caps acts st).header headerVary headerAcceptEncoding } := by
  induction acts generalizing st with
  | nil => simp [runActions]
  | cons a rest ih =>
      simp only [runActions]
      rw [step_plain_addVary caps st a hg (hv a (by simp))]
      exact ih (step caps st a) (by rw [step_writerGzip]; exact hg)
        (fun a' ha' => hv a' (by simp [ha']))

end Compress

namespace Compress

/-! ### Content-Encoding tracking -/

/-- A single interaction that neither edits `Content-Encoding` directly nor
writes a 204 status leaves the `Content-Encoding` values unchanged. -/
theorem step_CE_preserved (caps : SinkCaps) (st : St) (a : Action)
    (h204 : is204 a = false)
    (hce : touchesKey headerContentEncoding a = false) :
    (step caps st a).header headerContentEncoding
      = st.header headerContentEncoding := by
  cases a with
  | write b =>
      by_cases hg : st.writerGzip <;>
        by_cases hct : hGet st.header headerContentType = "" <;>
        simp [step, hg, hct, grwWrite, plainWrite, hSet, ce_ne_ct]
  | writeHeader code =>
      have hc : code ≠ 204 := by simpa [is204] using h204
      by_cases hg : st.writerGzip <;>
        simp [step, hg, grwWriteHeader, plainWriteHeader, hDel, hc, ce_ne_cl]
  | flush =>
      by_cases hg : st.writerGzip <;>
        by_cases hc : caps.canFlush <;>
        simp [step, hg, hc, plainFlush]
  | setHeader k v =>
      have hk : k ≠ headerContentEncoding := by simpa [touchesKey] using hce
      simp [step, hSet, hk, Ne.symm hk]
  | addHeader k v =>
      have hk : k ≠ headerContentEncoding := by simpa [touchesKey] using hce
      simp [step, hAdd, hk, Ne.symm hk]
  | delHeader k =>
      have hk : k ≠ headerContentEncoding := by simpa [touchesKey] using hce
      simp [step, hDel, hk, Ne.symm hk]

/-- A handler that neither edits `Content-Encoding` directly nor writes a
204 status leaves the `Content-Encoding` values unchanged. -/
theorem runActions_CE_preserved (caps : SinkCaps) (acts : List Action) (st : St)
    (h204 : ∀ a ∈ acts, is204 a = false)
    (hce : ∀ a ∈ acts, touchesKey headerContentEncoding a = false) :
    (runActions caps acts st).header headerContentEncoding
      = st.header headerContentEncoding := by
  induction acts generalizing st with
  | nil => rfl
  | cons a rest ih =>
      simp only [runActions]
      rw [ih (step caps st a) (fun a' ha' => h204 a' (by simp [ha']))
            (fun a' ha' => hce a' (by simp [ha'])),
          step_CE_preserved caps st a (h204 a (by simp)) (hce a (by simp))]

/-- A handler that does not edit `Content-Encoding` directly can only keep the
middleware's `gzip` value or lose it to a 204 status write. -/
theorem step_CE_cases (caps : SinkCaps) (st : St) (a : Action)
    (hce : touchesKey headerContentEncoding a = false)
    (hin : st.header headerContentEncoding = [gzipScheme] ∨
           st.header headerContentEncoding = []) :
    (step caps st a).header headerContentEncoding = [gzipScheme] ∨
    (step caps st a).header headerContentEncoding = [] := by
  cases a with
  | writeHeader code =>
      by_cases hc : code = 204
      · by_cases hg : st.writerGzip <;>
          simp [step, hg, grwWriteHeader, plainWriteHeader, hDel, hc, ce_ne_cl,
            hin]
      · rw [step_CE_preserved caps st _ (by simp [is204, hc]) hce]
        exact hin
  | setHeader k v =>
      rw [step_CE_preserved caps st _ (by simp [is204]) hce]
      exact hin
  | _ =>
      rw [step_CE_preserved caps st _ (by simp [is204]) hce]
      exact hin

/-- Over a whole handler that does not edit `Content-Encoding` directly, the
`Content-Encoding` values end as `gzip` or empty. -/
theorem runActions_CE_cases (caps : SinkCaps) (acts : List Action) (st : St)
    (hce : ∀ a ∈ acts, touchesKey headerContentEncoding a = false)
    (hin : st.header headerContentEncoding = [gzipScheme] ∨
           st.header headerContentEncoding = []) :
    (runActions caps acts st).header headerContentEncoding = [gzipScheme] ∨
    (runActions caps acts st).header headerContentEncoding = [] := by
  induction acts generalizing st with
  | nil => exact hin
  | cons a rest ih =>
      simp only [runActions]
      exact ih (step caps st a) (fun a' ha' => hce a' (by simp [ha']))
        (step_CE_cases caps st a (hce a (by simp)) hin)

/-! ### Wire tracking on the gzip path -/

/-- With the gzip decorator installed, an interaction that is not a flush puts
nothing on the wire. -/
theorem step_gzip_noflush_wire (caps : SinkCaps) (st : St) (a : Action)
    (hg : st.writerGzip = true) (hnf : isFlush a = false) :
    (step caps st a).wire = st.wire := by
  cases a <;> simp_all [step, isFlush, grwWrite, grwWriteHeader]

/-- With the gzip decorator installed, a handler that never flushes puts
nothing on the wire. -/
theorem runActions_gzip_noflush_wire (caps : SinkCaps) (acts : List Action)
    (st : St) (hg : st.writerGzip = true)
    (hnf : ∀ a ∈ acts, isFlush a = false) :
    (runActions caps acts st).wire = st.wire := by
  induction acts generalizing st with
  | nil => rfl
  | cons a rest ih =>
      simp only [runActions]
      rw [ih (step caps st a) (by rw [step_writerGzip]; exact hg)
            (fun a' ha' => hnf a' (by simp [ha'])),
          step_gzip_noflush_wire caps st a hg (hnf a (by simp))]

/-- With the gzip decorator installed and not discarding, a handler adds only
compressed blocks to the wire, and those blocks plus the remaining gzip buffer
carry exactly the bytes written. -/
theorem runActions_gzip_wire (caps : SinkCaps) (acts : List Action) (st : St)
    (hg : st.writerGzip = true) (hd : st.gzipDiscard = false) :
    ∃ bs : List Bytes,
      (runActions caps acts st).wire = st.wire ++ bs.map Chunk.block ∧
      bs.flatten ++ (runActions caps acts st).gzipBuf
        = st.gzipBuf ++ writtenBytes acts := by
  induction acts generalizing st with
  | nil => exact ⟨[], by simp [runActions, writtenBytes]⟩
  | cons a rest ih =>
      obtain ⟨bs, hw, hb⟩ := ih (step caps st a)
        (by rw [step_writerGzip]; exact hg)
        (by rw [step_gzipDiscard]; exact hd)
      cases a with
      | write b =>
          refine ⟨bs, ?_, ?_⟩
          · simp only [runActions]
            rw [hw]
            simp [step, hg, grwWrite]
          · simp only [runActions, writtenBytes]
            rw [← List.append_assoc, hb]
            simp [step, hg, grwWrite]
      | flush =>
          refine ⟨st.gzipBuf :: bs, ?_, ?_⟩
          · simp only [runActions]
            rw [hw]
            simp [step, hg, grwFlush_wire caps st hd]
          · simp only [runActions, writtenBytes, List.flatten_cons]
            simp only [step, hg, if_true] at hb
            simp only [grwFlush_gzipBuf, List.nil_append] at hb
            simp [List.append_assoc, hb, step, hg]
      | writeHeader code =>
          refine ⟨bs, ?_, ?_⟩
          · simp only [runActions]
            rw [hw]
            simp [step, hg, grwWriteHeader]
          · simp only [runActions, writtenBytes]
            rw [hb]
            simp [step, hg, grwWriteHeader]
      | setHeader k v =>
          refine ⟨bs, ?_, ?_⟩
          · simp only [runActions]
            rw [hw]
            simp [step]
          · simp only [runActions, writtenBytes]
            rw [hb]
            simp [step]
      | addHeader k v =>
          refine ⟨bs, ?_, ?_⟩
          · simp only [runActions]
            rw [hw]
            simp [step]
          · simp only [runActions, writtenBytes]
            rw [hb]
            simp [step]
      | delHeader k =>
          refine ⟨bs, ?_, ?_⟩
          · simp only [runActions]
            rw [hw]
            simp [step]
          · simp only [runActions, writtenBytes]
            rw [hb]
            simp [step]

/-! ### Decoding and finalizer lemmas -/

/-- A standard gzip reader decodes a stream of blocks closed by the trailer to
the concatenation of the block payloads. -/
theorem gunzip_blocks (bs : List Bytes) (b : Bytes) :
    gunzip (bs.map Chunk.block ++ [Chunk.block b, Chunk.trailer])
      = some (bs.flatten ++ b) := by
  induction bs with
  | nil => simp [gunzip]
  | cons x xs ih =>
      simp only [List.map_cons, List.cons_append, gunzip, List.append_eq, ih,
        List.flatten_cons, List.append_assoc]

/-- Incremental decoding distributes over appending wire chunks. -/
theorem blockPayloads_append (l1 l2 : List Chunk) :
    blockPayloads (l1 ++ l2) = blockPayloads l1 ++ blockPayloads l2 := by
  simp [blockPayloads]

/-- A single compressed block decodes incrementally to its payload. -/
theorem blockPayloads_block (b : Bytes) :
    blockPayloads [Chunk.block b] = b := by
  simp [blockPayloads]

/-- When bytes were written, the finalizer only closes the gzip stream:
remaining buffered bytes and the trailer go to the wire. -/
theorem finalize_pos (st : St) (hs : st.size ≠ 0) (hd : st.gzipDiscard = false) :
    finalize st = { st with
      wire := st.wire ++ [Chunk.block st.gzipBuf, Chunk.trailer],
      gzipBuf := [] } := by
  simp only [finalize, hs, if_false, gzipClose, reduceIte]
  simp [gzipEmit, hd]

/-- When no bytes were written, the finalizer strips a gzip
`Content-Encoding`, restores the pass-through writer and discards the gzip
state, and the close puts nothing on the wire. -/
theorem finalize_zero (st : St) (hs : st.size = 0) :
    finalize st = { st with
      header := if hGet st.header headerContentEncoding = gzipScheme then
                  hDel st.header headerContentEncoding
                else st.header,
      writerGzip := false, gzipBuf := [], gzipDiscard := true } := by
  simp only [finalize, hs, if_true, gzipClose, reduceIte]
  simp [gzipEmit]

end Compress

namespace Compress

/-! ### Unfolding the middleware paths -/

/-- On the activated path (no skip, gzip accepted, valid level) the middleware
runs the handler against the decorated state and finalizes. -/
theorem run_gzip (opts : Options) (req : Request) (caps : SinkCaps)
    (h : Handler) (h0 : Headers)
    (hskip : opts.skipper req = false)
    (hacc : stringContains req.acceptEncoding gzipScheme = true)
    (hlevel : gzipLevelValid opts.level = true) :
    run opts req caps h h0
      = { st := finalize (runActions caps h.acts (preGzipSt h0)),
          err := h.err, handlerRan := true } := by
  simp [run, hskip, hacc, hlevel]

/-- The decorated initial state advertises `Content-Encoding: gzip`. -/
theorem preGzipSt_header_CE (h0 : Headers) :
    (preGzipSt h0).header headerContentEncoding = [gzipScheme] := by
  simp [preGzipSt, gzipReadySt, varySt, initSt, hSet]

end Compress

namespace Compress

/-- C1 counterexample: with compression activated and a handler that writes no
bytes, the deferred finalizer strips `Content-Encoding` and discards the gzip
stream, so the final header is not `gzip` and the empty body does not decode
to the (empty) concatenation of writes. -/
theorem gzip_roundtrip_unqualified_cex :
    ¬ (hGet (run ceOpts ceReq ceCaps { acts := [], err := none }
            emptyHeaders).st.header headerContentEncoding = gzipScheme ∧
       gunzip (run ceOpts ceReq ceCaps { acts := [], err := none }
            emptyHeaders).st.wire = some (writtenBytes [])) := by
  decide

/-- C1 (amended): for every request whose `Accept-Encoding` contains `gzip`
(skip predicate false, compressor construction succeeding), if the handler
wrote at least one byte and neither wrote a 204 status nor edited
`Content-Encoding` itself, the final response has `Content-Encoding: gzip`
and a standard gzip reader decodes the body to exactly the concatenation, in
order, of the byte slices the handler wrote through the decorator. -/
theorem gzip_roundtrip_after_write (opts : Options) (req : Request)
    (caps : SinkCaps) (h : Handler) (h0 : Headers)
    (hskip : opts.skipper req = false)
    (hacc : stringContains req.acceptEncoding gzipScheme = true)
    (hlevel : gzipLevelValid opts.level = true)
    (hnz : writtenBytes h.acts ≠ [])
    (h204 : ∀ a ∈ h.acts, is204 a = false)
    (hce : ∀ a ∈ h.acts, touchesKey headerContentEncoding a = false) :
    hGet (run opts req caps h h0).st.header headerContentEncoding = gzipScheme ∧
    gunzip (run opts req caps h h0).st.wire = some (writtenBytes h.acts) := by
  rw [run_gzip opts req caps h h0 hskip hacc hlevel]
  have hsize : (runActions caps h.acts (preGzipSt h0)).size ≠ 0 := by
    rw [runActions_size]
    simp only [preGzipSt, gzipReadySt, varySt, initSt, Nat.zero_add]
    intro hlen
    exact hnz (List.eq_nil_of_length_eq_zero hlen)
  have hd4 : (runActions caps h.acts (preGzipSt h0)).gzipDiscard = false := by
    rw [runActions_gzipDiscard]; rfl
  rw [finalize_pos _ hsize hd4]
  constructor
  · show hGet (runActions caps h.acts (preGzipSt h0)).header
        headerContentEncoding = gzipScheme
    rw [hGet, runActions_CE_preserved caps h.acts (preGzipSt h0) h204 hce,
        preGzipSt_header_CE]
  · obtain ⟨bs, hw, hb⟩ :=
      runActions_gzip_wire caps h.acts (preGzipSt h0) rfl rfl
    show gunzip ((runActions caps h.acts (preGzipSt h0)).wire
        ++ [Chunk.block (runActions caps h.acts (preGzipSt h0)).gzipBuf,
            Chunk.trailer]) = some (writtenBytes h.acts)
    rw [hw]
    show gunzip ((preGzipSt h0).wire ++ bs.map Chunk.block ++ _) = _
    have hwire0 : (preGzipSt h0).wire = [] := rfl
    rw [hwire0, List.nil_append, gunzip_blocks, hb]
    rfl

end Compress

namespace Compress

/-- C1 witness: a concrete activated run whose handler writes two chunks. -/
theorem gzip_roundtrip_after_write_witness :
    hGet (run ceOpts ceReq ceCaps
        { acts := [Action.write [1, 2], Action.flush, Action.write [3]],
          err := none } emptyHeaders).st.header headerContentEncoding
      = gzipScheme ∧
    gunzip (run ceOpts ceReq ceCaps
        { acts := [Action.write [1, 2], Action.flush, Action.write [3]],
          err := none } emptyHeaders).st.wire = some ([1, 2, 3]) :=
  gzip_roundtrip_after_write ceOpts ceReq ceCaps
    { acts := [Action.write [1, 2], Action.flush, Action.write [3]],
      err := none } emptyHeaders rfl (by decide) (by decide) (by decide)
    (by decide) (by decide)

/-- C2 counterexample: a handler that flushes without writing any byte leaves
zero bytes written, yet the gzip flush has already emitted stream framing to
the underlying sink, so the final body is not empty and the response is
distinguishable from an untouched one. -/
theorem empty_response_reverted_cex :
    (run ceOpts ceReq ceCaps { acts := [Action.flush], err := none }
        emptyHeaders).st.size = 0 ∧
    (run ceOpts ceReq ceCaps { acts := [Action.flush], err := none }
        emptyHeaders).st.wire ≠ [] := by
  decide

/-- C2 (amended): for every request that activated compression, if zero bytes
were written, the handler never flushed, and the handler did not edit
`Content-Encoding` itself, then the final response carries no
`Content-Encoding` values, the original pass-through sink is restored as the
active sink, the gzip buffer is discarded, and the body stays empty. -/
theorem empty_response_reverted (opts : Options) (req : Request)
    (caps : SinkCaps) (h : Handler) (h0 : Headers)
    (hskip : opts.skipper req = false)
    (hacc : stringContains req.acceptEncoding gzipScheme = true)
    (hlevel : gzipLevelValid opts.level = true)
    (hz : writtenBytes h.acts = [])
    (hnf : ∀ a ∈ h.acts, isFlush a = false)
    (hce : ∀ a ∈ h.acts, touchesKey headerContentEncoding a = false) :
    (run opts req caps h h0).st.header headerContentEncoding = [] ∧
    (run opts req caps h h0).st.writerGzip = false ∧
    (run opts req caps h h0).st.wire = [] ∧
    (run opts req caps h h0).st.gzipBuf = [] := by
  rw [run_gzip opts req caps h h0 hskip hacc hlevel]
  have hsize : (runActions caps h.acts (preGzipSt h0)).size = 0 := by
    rw [runActions_size, hz]
    rfl
  rw [finalize_zero _ hsize]
  have hCE := runActions_CE_cases caps h.acts (preGzipSt h0) hce
    (Or.inl (preGzipSt_header_CE h0))
  have hwire : (runActions caps h.acts (preGzipSt h0)).wire = [] := by
    rw [runActions_gzip_noflush_wire caps h.acts _ rfl hnf]
    rfl
  refine ⟨?_, rfl, hwire, rfl⟩
  rcases hCE with hCE | hCE
  · simp [hGet, hCE, hDel, gzipScheme]
  · simp [hGet, hCE, gzipScheme, hDel]

/-- C2 witness: a concrete activated run whose handler performs a zero-byte
write and a status write but writes no body bytes. -/
theorem empty_response_reverted_witness :
    (run ceOpts ceReq ceCaps
        { acts := [Action.write [], Action.writeHeader 200], err := none }
        emptyHeaders).st.header headerContentEncoding = [] ∧
    (run ceOpts ceReq ceCaps
        { acts := [Action.write [], Action.writeHeader 200], err := none }
        emptyHeaders).st.writerGzip = false ∧
    (run ceOpts ceReq ceCaps
        { acts := [Action.write [], Action.writeHeader 200], err := none }
        emptyHeaders).st.wire = [] ∧
    (run ceOpts ceReq ceCaps
        { acts := [Action.write [], Action.writeHeader 200], err := none }
        emptyHeaders).st.gzipBuf = [] :=
  empty_response_reverted ceOpts ceReq ceCaps
    { acts := [Action.write [], Action.writeHeader 200], err := none }
    emptyHeaders rfl (by decide) (by decide) (by decide) (by decide) (by decide)

/-- C3 counterexample: on a sink that does not support hijacking, the
decorator's hijack is a failed bare type assertion, i.e. a runtime panic
rather than an explicit unsupported-capability signal. -/
theorem hijack_never_crashes_cex :
    grwHijack { canFlush := true, canHijack := false }
      = HijackOutcome.panicked := by
  decide

/-- C3 (amended): the decorator's hijack delegates to the underlying sink and
returns its raw connection when the sink supports hijacking, and panics on the
bare type assertion when it does not. -/
theorem hijack_delegates_or_panics (caps : SinkCaps) :
    grwHijack caps
      = if caps.canHijack then HijackOutcome.hijacked
        else HijackOutcome.panicked := rfl

end Compress

namespace Compress

/-- C4: for every request without the gzip token (and no skip), the run is
identical to running without the middleware — same error, same body wire,
same byte count, same status writes, same sink flushes, and the same header
map except that `Vary` gains the `Accept-Encoding` token — provided the
handler does not itself edit `Vary`. -/
theorem no_gzip_token_passthrough (opts : Options) (req : Request)
    (caps : SinkCaps) (h : Handler) (h0 : Headers)
    (hskip : opts.skipper req = false)
    (hacc : stringContains req.acceptEncoding gzipScheme = false)
    (hv : ∀ a ∈ h.acts, touchesKey headerVary a = false) :
    (run opts req caps h h0).err = (runWithout caps h h0).err ∧
    (run opts req caps h h0).handlerRan = (runWithout caps h h0).handlerRan ∧
    (run opts req caps h h0).st.wire = (runWithout caps h h0).st.wire ∧
    (run opts req caps h h0).st.size = (runWithout caps h h0).st.size ∧
    (run opts req caps h h0).st.statusWrites
      = (runWithout caps h h0).st.statusWrites ∧
    (run opts req caps h h0).st.flushCount
      = (runWithout caps h h0).st.flushCount ∧
    (run opts req caps h h0).st.header
      = hAdd (runWithout caps h h0).st.header headerVary
          headerAcceptEncoding := by
  have hrw : run opts req caps h h0
      = { st := runActions caps h.acts (varySt h0), err := h.err,
          handlerRan := true } := by
    simp [run, hskip, hacc]
  have hcomm : runActions caps h.acts (varySt h0)
      = { runActions caps h.acts (initSt h0) with
          header := hAdd (runActions caps h.acts (initSt h0)).header
            headerVary headerAcceptEncoding } :=
    runActions_plain_addVary caps h.acts (initSt h0) rfl hv
  rw [hrw, hcomm]
  exact ⟨rfl, rfl, rfl, rfl, rfl, rfl, rfl⟩

/-- C4 witness: a concrete non-gzip request with a handler that writes a body
and a status. -/
theorem no_gzip_token_passthrough_witness :
    (run ceOpts { acceptEncoding := "identity" } ceCaps
        { acts := [Action.write [5], Action.writeHeader 200], err := none }
        emptyHeaders).err
      = (runWithout ceCaps
        { acts := [Action.write [5], Action.writeHeader 200], err := none }
        emptyHeaders).err ∧
    (run ceOpts { acceptEncoding := "identity" } ceCaps
        { acts := [Action.write [5], Action.writeHeader 200], err := none }
        emptyHeaders).handlerRan
      = (runWithout ceCaps
        { acts := [Action.write [5], Action.writeHeader 200], err := none }
        emptyHeaders).handlerRan ∧
    (run ceOpts { acceptEncoding := "identity" } ceCaps
        { acts := [Action.write [5], Action.writeHeader 200], err := none }
        emptyHeaders).st.wire
      = (runWithout ceCaps
        { acts := [Action.write [5], Action.writeHeader 200], err := none }
        emptyHeaders).st.wire ∧
    (run ceOpts { acceptEncoding := "identity" } ceCaps
        { acts := [Action.write [5], Action.writeHeader 200], err := none }
        emptyHeaders).st.size
      = (runWithout ceCaps
        { acts := [Action.write [5], Action.writeHeader 200], err := none }
        emptyHeaders).st.size ∧
    (run ceOpts { acceptEncoding := "identity" } ceCaps
        { acts := [Action.write [5], Action.writeHeader 200], err := none }
        emptyHeaders).st.statusWrites
      = (runWithout ceCaps
        { acts := [Action.write [5], Action.writeHeader 200], err := none }
        emptyHeaders).st.statusWrites ∧
    (run ceOpts { acceptEncoding := "identity" } ceCaps
        { acts := [Action.write [5], Action.writeHeader 200], err := none }
        emptyHeaders).st.flushCount
      = (runWithout ceCaps
        { acts := [Action.write [5], Action.writeHeader 200], err := none }
        emptyHeaders).st.flushCount ∧
    (run ceOpts { acceptEncoding := "identity" } ceCaps
        { acts := [Action.write [5], Action.writeHeader 200], err := none }
        emptyHeaders).st.header
      = hAdd (runWithout ceCaps
        { acts := [Action.write [5], Action.writeHeader 200], err := none }
        emptyHeaders).st.header headerVary headerAcceptEncoding :=
  no_gzip_token_passthrough ceOpts { acceptEncoding := "identity" } ceCaps
    { acts := [Action.write [5], Action.writeHeader 200], err := none }
    emptyHeaders rfl (by decide) (by decide)

/-- C5: an error returned by the downstream handler on the activated path is
propagated unchanged to the caller, and because the deferred finalizer has
already run, a zero-byte error response carries no `Content-Encoding` values
(the handler not having set one of its own). -/
theorem handler_error_propagated (opts : Options) (req : Request)
    (caps : SinkCaps) (h : Handler) (h0 : Headers) (e : String)
    (he : h.err = some e)
    (hskip : opts.skipper req = false)
    (hacc : stringContains req.acceptEncoding gzipScheme = true)
    (hlevel : gzipLevelValid opts.level = true)
    (hz : writtenBytes h.acts = [])
    (hce : ∀ a ∈ h.acts, touchesKey headerContentEncoding a = false) :
    (run opts req caps h h0).err = some e ∧
    (run opts req caps h h0).st.header headerContentEncoding = [] := by
  rw [run_gzip opts req caps h h0 hskip hacc hlevel]
  have hsize : (runActions caps h.acts (preGzipSt h0)).size = 0 := by
    rw [runActions_size, hz]
    rfl
  rw [finalize_zero _ hsize]
  refine ⟨he, ?_⟩
  rcases runActions_CE_cases caps h.acts (preGzipSt h0) hce
      (Or.inl (preGzipSt_header_CE h0)) with hCE | hCE
  · simp [hGet, hCE, hDel, gzipScheme]
  · simp [hGet, hCE, gzipScheme, hDel]

/-- C5 witness: a concrete activated run whose handler writes nothing and
fails. -/
theorem handler_error_propagated_witness :
    (run ceOpts ceReq ceCaps
        { acts := [Action.writeHeader 404], err := some invalidLevelErr }
        emptyHeaders).err = some invalidLevelErr ∧
    (run ceOpts ceReq ceCaps
        { acts := [Action.writeHeader 404], err := some invalidLevelErr }
        emptyHeaders).st.header headerContentEncoding = [] :=
  handler_error_propagated ceOpts ceReq ceCaps
    { acts := [Action.writeHeader 404], err := some invalidLevelErr }
    emptyHeaders invalidLevelErr rfl rfl (by decide) (by decide) (by decide)
    (by decide)

/-- C6: when the configured level makes compressor construction fail, the
middleware returns the construction error itself and `next` is never
invoked. -/
theorem invalid_level_aborts (opts : Options) (req : Request)
    (caps : SinkCaps) (h : Handler) (h0 : Headers)
    (hskip : opts.skipper req = false)
    (hacc : stringContains req.acceptEncoding gzipScheme = true)
    (hlevel : gzipLevelValid opts.level = false) :
    (run opts req caps h h0).err = some invalidLevelErr ∧
    (run opts req caps h h0).handlerRan = false := by
  simp [run, hskip, hacc, hlevel]

/-- C6 witness: level 10 is outside the codec's range. -/
theorem invalid_level_aborts_witness :
    (run { skipper := fun _ => false, level := 10 } ceReq ceCaps
        { acts := [Action.write [1]], err := none } emptyHeaders).err
      = some invalidLevelErr ∧
    (run { skipper := fun _ => false, level := 10 } ceReq ceCaps
        { acts := [Action.write [1]], err := none } emptyHeaders).handlerRan
      = false :=
  invalid_level_aborts { skipper := fun _ => false, level := 10 } ceReq ceCaps
    { acts := [Action.write [1]], err := none } emptyHeaders rfl (by decide)
    (by decide)

/-- C7: when the skip predicate holds, the middleware call is exactly the run
without the middleware: same final state (no `Vary` append, no compression,
no header touched) and the handler's result returned unmodified. -/
theorem skip_bypasses (opts : Options) (req : Request) (caps : SinkCaps)
    (h : Handler) (h0 : Headers) (hskip : opts.skipper req = true) :
    run opts req caps h h0 = runWithout caps h h0 := by
  simp [run, hskip]

/-- C7 witness: a concrete always-skip configuration on a gzip-accepting
request. -/
theorem skip_bypasses_witness :
    run { skipper := fun _ => true, level := -1 } ceReq ceCaps
        { acts := [Action.write [9]], err := none } emptyHeaders
      = runWithout ceCaps { acts := [Action.write [9]], err := none }
          emptyHeaders :=
  skip_bypasses { skipper := fun _ => true, level := -1 } ceReq ceCaps
    { acts := [Action.write [9]], err := none } emptyHeaders rfl

/-- C8: the decorator's status write deletes `Content-Encoding` from the
underlying sink first exactly when the code is 204, deletes `Content-Length`
unconditionally, and delegates the status write to the underlying sink; it
touches neither wire nor byte count. -/
theorem writeHeader_deletes_then_delegates (st : St) (code : Nat) :
    (grwWriteHeader st code).header
      = hDel (if code = 204 then hDel st.header headerContentEncoding
              else st.header) headerContentLength ∧
    (grwWriteHeader st code).statusWrites = st.statusWrites ++ [code] ∧
    (grwWriteHeader st code).wire = st.wire ∧
    (grwWriteHeader st code).size = st.size :=
  ⟨rfl, rfl, rfl, rfl⟩

/-- C9: the decorator's flush first flushes the compressor — the buffered
bytes reach the wire as one decodable block, so an incremental reader
recovers exactly the bytes written so far — and then flushes the underlying
sink if and only if that sink supports flushing. -/
theorem flush_compressor_then_sink (caps : SinkCaps) (st : St)
    (hd : st.gzipDiscard = false) :
    (grwFlush caps st).wire = st.wire ++ [Chunk.block st.gzipBuf] ∧
    (grwFlush caps st).gzipBuf = [] ∧
    (grwFlush caps st).flushCount
      = st.flushCount + (if caps.canFlush then 1 else 0) ∧
    blockPayloads (grwFlush caps st).wire
      = blockPayloads st.wire ++ st.gzipBuf := by
  have hw := grwFlush_wire caps st hd
  refine ⟨hw, grwFlush_gzipBuf caps st, grwFlush_flushCount caps st, ?_⟩
  rw [hw, blockPayloads_append, blockPayloads_block]

/-- A concrete mid-request decorated state with two bytes buffered. -/
def sampleGzipSt : St :=
  { header := emptyHeaders, size := 2, wire := [Chunk.block [1]],
    statusWrites := [], flushCount := 0, writerGzip := true,
    gzipBuf := [7, 8], gzipDiscard := false }

/-- C9 witness: flushing the sample state on a flush-capable sink. -/
theorem flush_compressor_then_sink_witness :
    (grwFlush ceCaps sampleGzipSt).wire
      = sampleGzipSt.wire ++ [Chunk.block sampleGzipSt.gzipBuf] ∧
    (grwFlush ceCaps sampleGzipSt).gzipBuf = [] ∧
    (grwFlush ceCaps sampleGzipSt).flushCount
      = sampleGzipSt.flushCount + (if ceCaps.canFlush then 1 else 0) ∧
    blockPayloads (grwFlush ceCaps sampleGzipSt).wire
      = blockPayloads sampleGzipSt.wire ++ sampleGzipSt.gzipBuf :=
  flush_compressor_then_sink ceCaps sampleGzipSt rfl

/-- C10: when compressor construction fails, the headers already mutated are
not reverted: the error result still carries `Content-Encoding: gzip` and the
appended `Vary: Accept-Encoding` value. -/
theorem invalid_level_keeps_headers (opts : Options) (req : Request)
    (caps : SinkCaps) (h : Handler) (h0 : Headers)
    (hskip : opts.skipper req = false)
    (hacc : stringContains req.acceptEncoding gzipScheme = true)
    (hlevel : gzipLevelValid opts.level = false) :
    hGet (run opts req caps h h0).st.header headerContentEncoding
      = gzipScheme ∧
    (run opts req caps h h0).st.header headerVary
      = h0 headerVary ++ [headerAcceptEncoding] ∧
    (run opts req caps h h0).err = some invalidLevelErr := by
  have hrw : run opts req caps h h0
      = { st := gzipReadySt h0, err := some invalidLevelErr,
          handlerRan := false } := by
    simp [run, hskip, hacc, hlevel]
  rw [hrw]
  refine ⟨?_, ?_, rfl⟩
  · simp [gzipReadySt, varySt, initSt, hSet, hGet]
  · simp [gzipReadySt, varySt, initSt, hSet, hAdd, vary_ne_ce]

/-- C10 witness: a concrete run at level 99. -/
theorem invalid_level_keeps_headers_witness :
    hGet (run { skipper := fun _ => false, level := 99 } ceReq ceCaps
        { acts := [], err := none } emptyHeaders).st.header
        headerContentEncoding = gzipScheme ∧
    (run { skipper := fun _ => false, level := 99 } ceReq ceCaps
        { acts := [], err := none } emptyHeaders).st.header headerVary
      = emptyHeaders headerVary ++ [headerAcceptEncoding] ∧
    (run { skipper := fun _ => false, level := 99 } ceReq ceCaps
        { acts := [], err := none } emptyHeaders).err
      = some invalidLevelErr :=
  invalid_level_keeps_headers { skipper := fun _ => false, level := 99 }
    ceReq ceCaps { acts := [], err := none } emptyHeaders rfl (by decide)
    (by decide)

end Compress
